import Mathlib

/-!
Verification of the microfix/dashboard link-collection store against its
natural-language specification.

The development shallowly embeds the repository's code:

* `src/src/hooks/useLinks.ts` — the local-storage variant of the `useLinks`
  hook: `addLink`, `deleteLink`, `updateLink`, the load effect and `saveLinks`.
* `src/unnamed/part_000` — the remote-backend variant of `useLinks`:
  `fetchLinks` and the response-driven state updates of `addLink`,
  `deleteLink`, `updateLink`.
* `src/src/App.tsx` (second document: the evolved `server.js`) — the CORS
  origin callback and the `/api/links` route handlers, together with the
  `links` table schema from `/api/setup-db`.

JavaScript strings are modelled as Lean `String`, JS numbers holding epoch
milliseconds as `Nat`, fallible operations as `Option`/`Except`, and the
`localStorage` JSON blob by an executable serializer/parser pair proved
lossless.
-/

namespace Dashboard

/-- The `LinkItem` interface of `useLinks.ts` (both variants declare the same
shape): id, title, url, description, imageUrl, tags, createdAt. -/
structure LinkItem where
  id : String
  title : String
  url : String
  description : String
  imageUrl : String
  tags : List String
  createdAt : Nat
deriving DecidableEq

/-- A `Partial<Omit<LinkItem, 'id' | 'createdAt'>>` payload: each updatable
field is optionally present; `id` and `createdAt` are excluded by the type. -/
structure LinkPatch where
  title : Option String
  url : Option String
  description : Option String
  imageUrl : Option String
  tags : Option (List String)
deriving DecidableEq

/-- An `Omit<LinkItem, 'id' | 'createdAt'>` payload as passed to `addLink`. -/
structure NewLinkPayload where
  title : String
  url : String
  description : String
  imageUrl : String
  tags : List String
deriving DecidableEq

/-- The JS object spread `{ ...link, ...updatedLink }` from `updateLink`
(useLinks.ts line 79): fields present in the patch override, absent fields
keep the existing value; `id`/`createdAt` are not in the patch type. -/
def applyPatch (l : LinkItem) (p : LinkPatch) : LinkItem :=
  { l with
    title := p.title.getD l.title
    url := p.url.getD l.url
    description := p.description.getD l.description
    imageUrl := p.imageUrl.getD l.imageUrl
    tags := p.tags.getD l.tags }

/-- The object literal built by `addLink` (useLinks.ts lines 66-70):
`{ ...link, id: crypto.randomUUID(), createdAt: Date.now() }`. The fresh id
and the current time are parameters of the model. -/
def mkLink (p : NewLinkPayload) (newId : String) (now : Nat) : LinkItem :=
  ⟨newId, p.title, p.url, p.description, p.imageUrl, p.tags, now⟩

/-- `addLink` of the local variant (useLinks.ts lines 65-72): prepend the new
item, `saveLinks([newLink, ...links])`. -/
def addLink (links : List LinkItem) (p : NewLinkPayload) (newId : String) (now : Nat) :
    List LinkItem :=
  mkLink p newId now :: links

/-- `deleteLink` of the local variant (useLinks.ts lines 74-76):
`links.filter((link) => link.id !== id)`. -/
def deleteLink (links : List LinkItem) (i : String) : List LinkItem :=
  links.filter (fun l => l.id != i)

/-- `updateLink` of the local variant (useLinks.ts lines 78-80):
`links.map((link) => link.id === id ? { ...link, ...updatedLink } : link)`. -/
def updateLink (links : List LinkItem) (i : String) (p : LinkPatch) : List LinkItem :=
  links.map (fun l => if l.id = i then applyPatch l p else l)

/-- The `list()` operation of the spec: the hook returns the in-memory
collection `links` as-is (useLinks.ts line 82). -/
def listLinks (links : List LinkItem) : List LinkItem :=
  links

/-- One mutation of the Collection Store, carrying the nondeterministic
inputs (fresh id, current time) as data. -/
inductive Op where
  | add (p : NewLinkPayload) (newId : String) (now : Nat)
  | update (i : String) (p : LinkPatch)
  | delete (i : String)

/-- Apply one operation to the in-memory collection, per the local variant. -/
def applyOp (links : List LinkItem) : Op → List LinkItem
  | .add p newId now => addLink links p newId now
  | .update i p => updateLink links i p
  | .delete i => deleteLink links i

/-- Run a finite sequence of operations left to right. -/
def runOps (links : List LinkItem) (ops : List Op) : List LinkItem :=
  ops.foldl applyOp links

/-- An `add` supplies an id not currently in the collection — the model of
`crypto.randomUUID()` returning fresh ids; other operations are free. -/
def freshOpOk (links : List LinkItem) : Op → Bool
  | .add _ newId _ => links.all (fun l => l.id != newId)
  | _ => true

/-- Every `add` in the sequence supplies an id fresh at its point of use. -/
def freshIds (links : List LinkItem) : List Op → Bool
  | [] => true
  | op :: ops => freshOpOk links op && freshIds (applyOp links op) ops

/-- The first (and, with distinct ids, only) item carrying id `i`. -/
def findById (links : List LinkItem) (i : String) : Option LinkItem :=
  links.find? (fun l => l.id == i)

/-- Per-id abstract semantics of one operation: what the item with id `i`
becomes — added, patched, deleted, or untouched. -/
def idStep (i : String) (cur : Option LinkItem) : Op → Option LinkItem
  | .add p newId now => if newId = i then some (mkLink p newId now) else cur
  | .update j p => if j = i then cur.map (fun l => applyPatch l p) else cur
  | .delete j => if j = i then none else cur

/-! ## Remote-backend hook variant (src/unnamed/part_000) -/

/-- How one `fetch` of the remote variant settles: a 2xx response carrying
data, a non-2xx response with a status code, or a network-level failure
(the `catch` branch). -/
inductive FetchOutcome where
  | success (data : List LinkItem)
  | httpError (status : Nat)
  | networkError

/-- The three state cells of the remote `useLinks` (part_000 lines 14-16):
`links`, `loading`, `error`. -/
structure RemoteHookState where
  links : List LinkItem
  loading : Bool
  error : Option String
deriving DecidableEq

/-- Initial state of the remote hook: `useState<LinkItem[]>([])`,
`useState(true)`, `useState<string | null>(null)`. -/
def remoteInitState : RemoteHookState :=
  ⟨[], true, none⟩

/-- The state transition of `fetchLinks` (part_000 lines 19-36) for a fetch
that settles with the given outcome: `setLoading(true)`; on `response.ok`
`setLinks(data)`; on a non-ok response only a console log; on a thrown error
`setError('Could not load links')`; `finally setLoading(false)`. -/
def fetchLinksStep (s : RemoteHookState) (o : FetchOutcome) : RemoteHookState :=
  match o with
  | .success data => { s with links := data, loading := false }
  | .httpError _ => { s with loading := false }
  | .networkError => { s with loading := false, error := some "Could not load links" }

/-- The in-memory update of the remote `deleteLink` (part_000 lines 59-68):
only when `response.ok` does the client filter the item out; otherwise the
collection is left untouched. -/
def applyDeleteResponse (links : List LinkItem) (i : String) (ok : Bool) : List LinkItem :=
  if ok then links.filter (fun l => l.id != i) else links

/-- The in-memory update of the remote `addLink` (part_000 lines 42-57): on
`response.ok` the server's returned item is prepended, `[newLink, ...prev]`;
otherwise the collection is left untouched. -/
def applyAddResponse (links : List LinkItem) (serverItem : LinkItem) (ok : Bool) :
    List LinkItem :=
  if ok then serverItem :: links else links

/-! ## CORS origin callback (src/src/App.tsx lines 271-294)

The evolved server embedded in the App.tsx source document. The callback
receives the request's `Origin` header (`none` models an absent header) and
either accepts (`callback(null, true)`, modelled `.ok true`) or rejects with
an error before any route handler runs (`callback(new Error(msg), false)`,
modelled `.error msg`). -/

/-- The explicit allow-list, `['http://localhost:5173', 'http://localhost:4173']`. -/
def allowedOriginsApp : List String :=
  ["http://localhost:5173", "http://localhost:4173"]

/-- JS `String.prototype.endsWith`, modelled on the character sequences. -/
def jsEndsWith (s suffix : String) : Bool :=
  suffix.data.isSuffixOf s.data

/-- The CORS rejection message used by both server variants. -/
def corsErrorMsg : String :=
  "The CORS policy for this site does not allow access from the specified Origin."

/-- The `cors` origin callback of the App.tsx server variant: accept when the
origin is absent, in the allow-list, or when the origin string ends with
`microfix.dk`; otherwise reject with an error. -/
def corsOriginApp (origin : Option String) : Except String Bool :=
  match origin with
  | none => .ok true
  | some o =>
    if allowedOriginsApp.contains o then .ok true
    else if jsEndsWith o "microfix.dk" then .ok true
    else .error corsErrorMsg

/-- The part of an origin after the first scheme separator `://`, when one
is present. -/
def schemeRest : List Char → Option (List Char)
  | ':' :: '/' :: '/' :: r => some r
  | _ :: r => schemeRest r
  | [] => none

/-- Modelled from the spec: "any subdomain of one fixed parent domain"
(microfix.dk). An origin is a subdomain origin when, after the scheme
separator, its host ends with the label-boundary suffix `.microfix.dk`. -/
def isSubdomainOriginOfMicrofix (o : String) : Bool :=
  match schemeRest o.data with
  | some host => ".microfix.dk".data.isSuffixOf host
  | none => false

/-- The spec's acceptance predicate for C5, assembled from its words: the
origin is absent, or is in the explicit allow-list, or is a subdomain of the
one fixed parent domain. -/
def specCorsAccepts (origin : Option String) : Bool :=
  match origin with
  | none => true
  | some o => allowedOriginsApp.contains o || isSubdomainOriginOfMicrofix o

/-- The allow-list of the `server.js` variant (lines 17):
`['https://app.microfix.dk', 'http://localhost:5173', 'http://localhost:4173']`. -/
def allowedOriginsServer : List String :=
  ["https://app.microfix.dk", "http://localhost:5173", "http://localhost:4173"]

/-- The `cors` origin callback of the `server.js` variant (lines 18-29):
absent origin accepted, otherwise accept exactly the allow-list — no
subdomain rule at all. -/
def corsOriginServer (origin : Option String) : Except String Bool :=
  match origin with
  | none => .ok true
  | some o =>
    if allowedOriginsServer.contains o then .ok true
    else .error corsErrorMsg

/-! ## REST handlers of the App.tsx server variant -/

/-- A row of the `links` table, per the schema created by `/api/setup-db`
(App.tsx lines 355-364): `id UUID`, `title TEXT NOT NULL`, `url TEXT NOT
NULL`, `description TEXT`, `imageUrl TEXT`, `tags TEXT[]`, `createdAt BIGINT
NOT NULL`. Unquoted Postgres identifiers fold to lower case, so the stored
column behind both `imageUrl` and `createdAt` is `imageurl`/`createdat`. -/
structure DbRow where
  id : String
  title : String
  url : String
  description : Option String
  imageurl : Option String
  tags : Option (List String)
  createdat : Nat
deriving DecidableEq

/-- The JSON body of a POST /api/links request as destructured by the handler
(App.tsx line 396): every field may be absent. -/
structure PostBody where
  title : Option String
  url : Option String
  description : Option String
  imageUrl : Option String
  tags : Option (List String)
  createdAt : Option Nat
deriving DecidableEq

/-- The INSERT issued by POST /api/links (App.tsx lines 398-401), with the
database's NOT NULL enforcement from the schema: `title`, `url` and
`createdAt` are NOT NULL columns with no default, so inserting an absent
value fails; `id` gets the generated uuid, modelled as a parameter. -/
def insertLink (b : PostBody) (newId : String) : Except String DbRow :=
  match b.title, b.url, b.createdAt with
  | some t, some u, some c => .ok ⟨newId, t, u, b.description, b.imageUrl, b.tags, c⟩
  | _, _, _ => .error "null value violates not-null constraint"

/-- The POST /api/links handler (App.tsx lines 395-407): on a successful
INSERT respond with the returned row (`res.json(result.rows[0])`, status
200); on a query error respond 500 with no created item. -/
def postLinksHandler (b : PostBody) (newId : String) : Nat × Option DbRow :=
  match insertLink b newId with
  | .ok row => (200, some row)
  | .error _ => (500, none)

/-! ## Response shapes of GET /api/links and PUT /api/links/:id (C10)

The two handlers serialize a row differently, so their JSON is modelled
explicitly. -/

/-- A JSON value, as far as these responses need: strings, numbers, string
arrays, null, and objects with ordered fields. -/
inductive Json where
  | str (s : String)
  | num (n : Nat)
  | arr (items : List String)
  | null
  | obj (fields : List (String × Json))

/-- Look a key up in a JSON object (first occurrence); `none` when the key is
absent or the value is not an object. -/
def jsonLookup (k : String) : Json → Option Json
  | .obj fields => fields.lookup k
  | _ => none

/-- Render an optional text/array column as JSON (`NULL` becomes `null`). -/
def optStrJson (v : Option String) : Json :=
  match v with
  | some s => .str s
  | none => .null

/-- Render the optional `tags` array column as JSON. -/
def optArrJson (v : Option (List String)) : Json :=
  match v with
  | some ts => .arr ts
  | none => .null

/-- A raw `pg` row as JSON: lower-cased column names, with the BIGINT
`createdat` delivered as a string (the GET handler's own comment:
"PostgreSQL might return bigint as string"). -/
def dbRowJson (r : DbRow) : List (String × Json) :=
  [("id", .str r.id), ("title", .str r.title), ("url", .str r.url),
   ("description", optStrJson r.description), ("imageurl", optStrJson r.imageurl),
   ("tags", optArrJson r.tags), ("createdat", .str (toString r.createdat))]

/-- One element of the GET /api/links response (App.tsx lines 383-386):
`{ ...row, createdAt: Number(row.createdat) }` — the spread keeps every raw
column and appends a numeric `createdAt` field. -/
def getLinksItem (r : DbRow) : Json :=
  .obj (dbRowJson r ++ [("createdAt", .num r.createdat)])

/-- The success body of PUT /api/links/:id (App.tsx line 421):
`res.json(result.rows[0])` — the raw row, with no createdAt conversion. -/
def putLinkResponse (r : DbRow) : Json :=
  .obj (dbRowJson r)

/-- Whether an in-memory item held as JSON carries the given id, as the
remote client compares it (`link.id === id`). -/
def jsonIdIs (j : Json) (i : String) : Bool :=
  match jsonLookup "id" j with
  | some (.str s) => s == i
  | _ => false

/-- The in-memory replacement done by the remote `updateLink` (part_000
line 79): `prev.map(link => link.id === id ? savedLink : link)`, with the
items held as the JSON the server returned. -/
def clientReplaceItem (prev : List Json) (i : String) (saved : Json) : List Json :=
  prev.map (fun l => if jsonIdIs l i then saved else l)

/-! ## The durable form: `JSON.stringify` / `JSON.parse` of the collection

The local variant persists the whole collection as one JSON array under the
key `app-dashboard-links` (useLinks.ts lines 17, 56, 62) and reloads it with
`JSON.parse` (line 20). The serializer and parser below model that pair as
executable functions on the fixed `LinkItem` shape, proved lossless; a
stored value on which the parser fails models a blob `JSON.parse` throws
on. Characters are the JS string's code units. -/

/-- Escape one character of a JSON string body: quote and backslash get a
backslash prefix, everything else is carried verbatim. -/
def escChar (c : Char) : List Char :=
  if c = '"' ∨ c = '\\' then ['\\', c] else [c]

/-- Encode a JSON string body (without the delimiting quotes). -/
def encStr : List Char → List Char
  | [] => []
  | c :: cs => escChar c ++ encStr cs

/-- Parse a JSON string body up to and including the closing quote; the
flag records that the previous character was an unconsumed backslash, so
the next character is taken literally. -/
def parseStrF : Bool → List Char → Option (List Char × List Char)
  | _, [] => none
  | true, c :: r => (parseStrF false r).map (fun p => (c :: p.1, p.2))
  | false, c :: r =>
    if c = '"' then some ([], r)
    else if c = '\\' then parseStrF true r
    else (parseStrF false r).map (fun p => (c :: p.1, p.2))

/-- Parse a JSON string body up to and including the closing quote,
returning the body and the unconsumed remainder. -/
def parseStr (l : List Char) : Option (List Char × List Char) :=
  parseStrF false l

/-- The decimal digit character for `d < 10`. -/
def digitChar (d : Nat) : Char :=
  Char.ofNat (48 + d)

/-- Encode a natural number in decimal, most significant digit first. -/
def encNat (n : Nat) : List Char :=
  if n = 0 then ['0'] else (Nat.digits 10 n).reverse.map digitChar

/-- Consume leading decimal digits, accumulating their value. -/
def parseNatAux : Nat → List Char → Nat × List Char
  | acc, [] => (acc, [])
  | acc, c :: r =>
    if c.isDigit then parseNatAux (10 * acc + (c.toNat - 48)) r else (acc, c :: r)

/-- Parse a decimal number (at least one digit). -/
def parseNat : List Char → Option (Nat × List Char)
  | [] => none
  | c :: r => if c.isDigit then some (parseNatAux (c.toNat - 48) r) else none

/-- Encode the tail of a tag array: for each remaining tag a comma and a
quoted string, then the closing bracket. -/
def encTagsAux : List String → List Char
  | [] => [']']
  | t :: ts => ',' :: '"' :: (encStr t.data ++ '"' :: encTagsAux ts)

/-- Encode a tag array, brackets included. -/
def encTags : List String → List Char
  | [] => ['[', ']']
  | t :: ts => '[' :: '"' :: (encStr t.data ++ '"' :: encTagsAux ts)

/-- Parse the elements of a nonempty tag array, positioned just after an
opening quote; the fuel bounds the number of elements. -/
def parseTagsListF : Nat → List Char → Option (List String × List Char)
  | 0, _ => none
  | fuel + 1, l =>
    match parseStr l with
    | none => none
    | some (s, r) =>
      match r with
      | [] => none
      | c :: r2 =>
        if c = ']' then some ([⟨s⟩], r2)
        else if c = ',' then
          match r2 with
          | [] => none
          | d :: r3 =>
            if d = '"' then
              match parseTagsListF fuel r3 with
              | some (ts, rest) => some (⟨s⟩ :: ts, rest)
              | none => none
            else none
        else none

/-- Parse a tag array, brackets included. -/
def parseTags : List Char → Option (List String × List Char)
  | [] => none
  | c :: r =>
    if c = '[' then
      match r with
      | [] => none
      | d :: r2 =>
        if d = ']' then some ([], r2)
        else if d = '"' then parseTagsListF r2.length r2
        else none
    else none

/-- Recognize an expected literal prefix and return what follows it. -/
def expectLit : List Char → List Char → Option (List Char)
  | [], l => some l
  | _ :: _, [] => none
  | c :: cs, d :: l => if d = c then expectLit cs l else none

/-- The opening of a serialized item, through the opening quote of `id`. -/
def kId : List Char := "\x7b\"id\":\"".data

/-- Separator from the `id` value to the opening quote of `title`. -/
def kTitle : List Char := ",\"title\":\"".data

/-- Separator from the `title` value to the opening quote of `url`. -/
def kUrl : List Char := ",\"url\":\"".data

/-- Separator from the `url` value to the opening quote of `description`. -/
def kDescription : List Char := ",\"description\":\"".data

/-- Separator from the `description` value to the opening quote of `imageUrl`. -/
def kImageUrl : List Char := ",\"imageUrl\":\"".data

/-- Separator from the `imageUrl` value to the `tags` array. -/
def kTags : List Char := ",\"tags\":".data

/-- Separator from the `tags` array to the `createdAt` number. -/
def kCreatedAt : List Char := ",\"createdAt\":".data

/-- The closing brace of a serialized item. -/
def kEnd : List Char := "\x7d".data

/-- Encode a string value with its closing quote. -/
def encStrQ (s : String) : List Char :=
  encStr s.data ++ ['"']

/-- Serialize one `LinkItem` as a JSON object, fields in declaration order. -/
def encItemData (x : LinkItem) : List Char :=
  kId ++ (encStrQ x.id ++ (kTitle ++ (encStrQ x.title ++ (kUrl ++ (encStrQ x.url ++
    (kDescription ++ (encStrQ x.description ++ (kImageUrl ++ (encStrQ x.imageUrl ++
    (kTags ++ (encTags x.tags ++ (kCreatedAt ++ (encNat x.createdAt ++ kEnd)))))))))))))

/-- Recognize a field separator and parse the string value after it. -/
def parseField (key : List Char) (l : List Char) : Option (List Char × List Char) :=
  (expectLit key l).bind fun r => parseStr r

/-- The five string fields of a serialized item, in order. -/
structure ItemStrs where
  sid : List Char
  st : List Char
  su : List Char
  sde : List Char
  sim : List Char

/-- Parse the five string fields of a serialized item. -/
def parseItemStrs (l : List Char) : Option (ItemStrs × List Char) :=
  (parseField kId l).bind fun p1 =>
  (parseField kTitle p1.2).bind fun p2 =>
  (parseField kUrl p2.2).bind fun p3 =>
  (parseField kDescription p3.2).bind fun p4 =>
  (parseField kImageUrl p4.2).bind fun p5 =>
  some (⟨p1.1, p2.1, p3.1, p4.1, p5.1⟩, p5.2)

/-- Parse one serialized `LinkItem`. -/
def parseItem (l : List Char) : Option (LinkItem × List Char) :=
  (parseItemStrs l).bind fun ps =>
  (expectLit kTags ps.2).bind fun r11 =>
  (parseTags r11).bind fun ptags =>
  (expectLit kCreatedAt ptags.2).bind fun r13 =>
  (parseNat r13).bind fun pn =>
  (expectLit kEnd pn.2).bind fun r15 =>
  some (⟨⟨ps.1.sid⟩, ⟨ps.1.st⟩, ⟨ps.1.su⟩, ⟨ps.1.sde⟩, ⟨ps.1.sim⟩, ptags.1, pn.1⟩, r15)

/-- Encode the tail of the item array: for each remaining item a comma and
its object, then the closing bracket. -/
def encItemsAux : List LinkItem → List Char
  | [] => [']']
  | x :: xs => ',' :: (encItemData x ++ encItemsAux xs)

/-- Serialize the whole collection as a JSON array — the durable form held
under the `app-dashboard-links` key. -/
def encLinksData : List LinkItem → List Char
  | [] => ['[', ']']
  | x :: xs => '[' :: (encItemData x ++ encItemsAux xs)

/-- Parse the elements of a nonempty item array; the fuel bounds the number
of elements. -/
def parseLinksAuxF : Nat → List Char → Option (List LinkItem × List Char)
  | 0, _ => none
  | fuel + 1, l =>
    match parseItem l with
    | none => none
    | some (x, r) =>
      match r with
      | [] => none
      | c :: r2 =>
        if c = ']' then some ([x], r2)
        else if c = ',' then
          match parseLinksAuxF fuel r2 with
          | some (xs, rest) => some (x :: xs, rest)
          | none => none
        else none

/-- The model of `JSON.stringify(newLinks)` in `saveLinks` (useLinks.ts
line 62). -/
def encodeLinks (ls : List LinkItem) : String :=
  ⟨encLinksData ls⟩

/-- Accept a parse only when it consumed the whole stored value. -/
def finishParse : Option (List LinkItem × List Char) → Option (List LinkItem)
  | some (ls, []) => some ls
  | _ => none

/-- The model of `JSON.parse(savedLinks)` in the load effect (useLinks.ts
line 20): succeeds only when the stored value is a full serialized
collection; `none` models the thrown `SyntaxError` the hook catches. -/
def decodeLinks (s : String) : Option (List LinkItem) :=
  match s.data with
  | [] => none
  | c :: r =>
    if c = '[' then
      match r with
      | [] => none
      | d :: r2 =>
        if d = ']' then (if r2 = [] then some [] else none)
        else finishParse (parseLinksAuxF r.length r)
    else none

/-! ## Local-variant initialization (useLinks.ts lines 16-58) -/

/-- The single state cell of the local `useLinks`: the hook declares only
`const [links, setLinks] = useState<LinkItem[]>([])` — there is no loading
or error cell in this variant. -/
structure LocalHookState where
  links : List LinkItem
deriving DecidableEq

/-- The three literal seed entries (useLinks.ts lines 26-54), with
`Date.now()` passed in as `now`. -/
def seedLinks (now : Nat) : List LinkItem :=
  [⟨"1", "NEON RUNNER", "https://example.com/neon",
    "A high-speed synthwave arcade game built with Three.js.",
    "https://images.unsplash.com/photo-1614850523296-d8c1af93d400?w=800&auto=format&fit=crop&q=60",
    ["Game", "3D"], now⟩,
   ⟨"2", "VIBE CALENDAR", "https://example.com/calendar",
    "A minimalist productivity tool focused on mood and focus.",
    "https://images.unsplash.com/photo-1506744038136-46273834b3fb?w=800&auto=format&fit=crop&q=60",
    ["Utility", "Minimalist"], now - 1000⟩,
   ⟨"3", "AUDIO VISUALIZER", "https://example.com/audio",
    "Real-time frequency analysis with dynamic particle systems.",
    "https://images.unsplash.com/photo-1470225620780-dba8ba36b745?w=800&auto=format&fit=crop&q=60",
    ["Audio", "Creative"], now - 2000⟩]

/-- The load effect of the local variant: with a stored value present, parse
it — on success adopt the parsed collection, on failure log and leave the
initial empty state; with no stored value, seed the three example entries.
The function is total: the `catch` confines the parse failure, nothing
escapes the store boundary. -/
def initLocalStore (stored : Option String) (now : Nat) : LocalHookState :=
  match stored with
  | some s =>
    match decodeLinks s with
    | some parsed => ⟨parsed⟩
    | none => ⟨[]⟩
  | none => ⟨seedLinks now⟩

/-! ## Helper lemmas -/

/-- Filtering keeps a list intact when every element passes. -/
theorem filter_keep_all {l : List LinkItem} {p : LinkItem → Bool}
    (h : ∀ a ∈ l, p a = true) : l.filter p = l := by
  induction l with
  | nil => rfl
  | cons a t ih =>
    rw [List.filter_cons, if_pos (h a (List.mem_cons_self a t)),
      ih (fun b hb => h b (List.mem_cons_of_mem a hb))]

/-- Mapping keeps a list intact when every element is a fixed point. -/
theorem map_fix_all {l : List LinkItem} {f : LinkItem → LinkItem}
    (h : ∀ a ∈ l, f a = a) : l.map f = l := by
  induction l with
  | nil => rfl
  | cons a t ih =>
    rw [List.map_cons, h a (List.mem_cons_self a t),
      ih (fun b hb => h b (List.mem_cons_of_mem a hb))]

/-! ## C2: partial update changes only the given fields -/

/-- C2: for every collection, id and partial payload, `update` rewrites the
collection pointwise — the item at each position is unchanged unless its id
matches, a matching item is the spread `{ ...link, ...updatedLink }`, that
spread keeps `id` and `createdAt` and every field the patch omits and takes
every field the patch supplies, and the spec's worked example — item
`{title:"A", tags:["x"]}` updated with `{tags:["y","z"]}` — yields
`{title:"A", tags:["y","z"]}`. -/
theorem update_changes_only_given_fields (links : List LinkItem) (i : String)
    (p : LinkPatch) (k : Nat) (l : LinkItem) :
    (updateLink links i p)[k]? =
      (links[k]?).map (fun a => if a.id = i then applyPatch a p else a)
    ∧ (applyPatch l p).id = l.id
    ∧ (applyPatch l p).createdAt = l.createdAt
    ∧ (applyPatch l p).title = p.title.getD l.title
    ∧ (applyPatch l p).url = p.url.getD l.url
    ∧ (applyPatch l p).description = p.description.getD l.description
    ∧ (applyPatch l p).imageUrl = p.imageUrl.getD l.imageUrl
    ∧ (applyPatch l p).tags = p.tags.getD l.tags
    ∧ updateLink [⟨"7", "A", "u", "d", "im", ["x"], 42⟩] "7"
        ⟨none, none, none, none, some ["y", "z"]⟩
        = [⟨"7", "A", "u", "d", "im", ["y", "z"], 42⟩] := by
  refine ⟨?_, rfl, rfl, rfl, rfl, rfl, rfl, rfl, by decide⟩
  simp [updateLink]

/-! ## C3: add prepends, list returns the new item first -/

/-- C3: `add` followed immediately by `list` yields the freshly built item in
the first position with the previous collection intact behind it, for every
`createdAt` value `now` — a prepend, never a re-sort. The remote variant's
ok-response update prepends the server's item the same way. -/
theorem add_prepends (links : List LinkItem) (p : NewLinkPayload)
    (newId : String) (now : Nat) (serverItem : LinkItem) :
    listLinks (addLink links p newId now) = mkLink p newId now :: links
    ∧ (listLinks (addLink links p newId now)).head? = some (mkLink p newId now)
    ∧ (listLinks (addLink links p newId now)).tail = links
    ∧ (mkLink p newId now).createdAt = now
    ∧ applyAddResponse links serverItem true = serverItem :: links := by
  exact ⟨rfl, rfl, rfl, rfl, by simp [applyAddResponse]⟩

/-! ## C9: remote initial-load flags -/

/-- C9: starting from the remote hook's initial state, the loading flag is
true and becomes false however the initial fetch settles; the error flag is
set exactly on a network-level failure — a non-2xx HTTP response leaves it
unset and the collection empty. -/
theorem remote_load_flags (o : FetchOutcome) :
    remoteInitState.loading = true
    ∧ (fetchLinksStep remoteInitState o).loading = false
    ∧ (fetchLinksStep remoteInitState o).error
        = (match o with
           | .networkError => some "Could not load links"
           | _ => none)
    ∧ (fetchLinksStep remoteInitState o).links
        = (match o with
           | .success data => data
           | _ => []) := by
  cases o <;> simp [remoteInitState, fetchLinksStep]

/-! ## C5: cross-origin policy -/

/-- C5 counterexample: the App.tsx callback accepts
`https://evilmicrofix.dk`, an origin that is neither absent, nor in the
allow-list, nor a subdomain of microfix.dk — so acceptance is not the
claimed "absent, allow-listed or subdomain" condition. The server.js
variant deviates in the other direction: it rejects the genuine subdomain
origin `https://dashboard.microfix.dk`. -/
theorem cors_claim_counterexample :
    corsOriginApp (some "https://evilmicrofix.dk") = .ok true
    ∧ specCorsAccepts (some "https://evilmicrofix.dk") = false
    ∧ corsOriginServer (some "https://dashboard.microfix.dk") = .error corsErrorMsg
    ∧ specCorsAccepts (some "https://dashboard.microfix.dk") = true := by
  exact ⟨rfl, by decide, rfl, by decide⟩

/-- C5 amended: the App.tsx server accepts a cross-origin request exactly
when the origin is absent, in the explicit allow-list, or ends with the
string `microfix.dk` (a superset of the subdomains of microfix.dk); every
other origin is answered with the CORS error before any route handler. -/
theorem cors_accepts_iff (o : Option String) :
    (corsOriginApp o = .ok true ↔
      (o = none ∨ ∃ s, o = some s ∧
        (s ∈ allowedOriginsApp ∨ jsEndsWith s "microfix.dk" = true)))
    ∧ (corsOriginApp o = .ok true ∨ corsOriginApp o = .error corsErrorMsg) := by
  cases o with
  | none => exact ⟨by simp [corsOriginApp], Or.inl rfl⟩
  | some s =>
    constructor
    · constructor
      · intro h
        refine Or.inr ⟨s, rfl, ?_⟩
        by_cases h1 : s ∈ allowedOriginsApp
        · exact Or.inl h1
        · by_cases h2 : jsEndsWith s "microfix.dk" = true
          · exact Or.inr h2
          · simp [corsOriginApp, h1, h2] at h
      · rintro (h | ⟨t, ht, h1 | h2⟩) <;> simp_all [corsOriginApp]
    · by_cases h1 : s ∈ allowedOriginsApp
      · exact Or.inl (by simp [corsOriginApp, h1])
      · by_cases h2 : jsEndsWith s "microfix.dk" = true
        · exact Or.inl (by simp [corsOriginApp, h1, h2])
        · exact Or.inr (by simp [corsOriginApp, h1, h2])

/-- C5 amended claim witnessed on a genuine subdomain origin. -/
theorem cors_accepts_iff_witness :
    corsOriginApp (some "https://app.microfix.dk") = .ok true :=
  (cors_accepts_iff (some "https://app.microfix.dk")).1.2
    (Or.inr ⟨"https://app.microfix.dk", rfl, Or.inr (by decide)⟩)

/-! ## C6: POST /api/links and the omitted createdAt -/

/-- C6 counterexample: a POST body carrying title and url but no createdAt
makes the INSERT violate the `createdAt BIGINT NOT NULL` column, so the
handler answers 500 with no created item — not the created LinkItem the
claim promises. -/
theorem post_omitted_createdAt_counterexample :
    (⟨some "A", some "https://x.example", none, none, none, none⟩ : PostBody).title
        = some "A"
    ∧ (⟨some "A", some "https://x.example", none, none, none, none⟩ : PostBody).url
        = some "https://x.example"
    ∧ (⟨some "A", some "https://x.example", none, none, none, none⟩ : PostBody).createdAt
        = none
    ∧ postLinksHandler ⟨some "A", some "https://x.example", none, none, none, none⟩
        "3f8a" = (500, none)
    ∧ (postLinksHandler ⟨some "A", some "https://x.example", none, none, none, none⟩
        "3f8a").1 ≠ 200 := by
  exact ⟨rfl, rfl, rfl, rfl, by decide⟩

/-- C6 amended: createdAt is required, not optional — a body without it makes
the INSERT fail and the handler answer 500 with no item; a body carrying
title, url and createdAt gets a 200 response with the inserted row, its id
the backend-assigned uuid and the body's createdAt stored verbatim (never
overwritten). -/
theorem post_requires_createdAt (b : PostBody) (newId : String) :
    (b.createdAt = none → postLinksHandler b newId = (500, none))
    ∧ (∀ t u c, b.title = some t → b.url = some u → b.createdAt = some c →
        postLinksHandler b newId
          = (200, some ⟨newId, t, u, b.description, b.imageUrl, b.tags, c⟩)) := by
  constructor
  · intro h
    rcases b with ⟨bt, bu, _, _, _, bc⟩
    cases bt <;> cases bu <;> simp_all [postLinksHandler, insertLink]
  · intro t u c ht hu hc
    rcases b with ⟨bt, bu, _, _, _, bc⟩
    simp_all [postLinksHandler, insertLink]

/-- C6 amended claim witnessed at a concrete complete and incomplete body. -/
theorem post_requires_createdAt_witness :
    postLinksHandler ⟨some "A", some "https://x.example", none, none, none, some 5⟩
        "3f8a" = (200, some ⟨"3f8a", "A", "https://x.example", none, none, none, 5⟩)
    ∧ postLinksHandler ⟨none, none, none, none, none, none⟩ "3f8a" = (500, none) :=
  ⟨(post_requires_createdAt ⟨some "A", some "https://x.example", none, none, none,
      some 5⟩ "3f8a").2 "A" "https://x.example" 5 rfl rfl rfl,
   (post_requires_createdAt ⟨none, none, none, none, none, none⟩ "3f8a").1 rfl⟩

/-! ## C10: PUT response shape differs from a GET element -/

/-- C10: for every row, the PUT /api/links/:id success body has no
`createdAt` key (only the raw lower-cased `createdat` string column), while
a GET /api/links element carries the numeric `createdAt` field; the two
objects are never equal, and the remote `updateLink` replaces the in-memory
GET-shaped item with the PUT-shaped response, so the unconverted
representation is what remains. -/
theorem put_response_lacks_numeric_createdAt (r : DbRow) :
    jsonLookup "createdAt" (putLinkResponse r) = none
    ∧ jsonLookup "createdAt" (getLinksItem r) = some (.num r.createdat)
    ∧ putLinkResponse r ≠ getLinksItem r
    ∧ clientReplaceItem [getLinksItem r] r.id (putLinkResponse r)
        = [putLinkResponse r] := by
  refine ⟨?_, ?_, ?_, ?_⟩
  · simp [jsonLookup, putLinkResponse, dbRowJson, List.lookup]
  · simp [jsonLookup, getLinksItem, dbRowJson, List.lookup]
  · intro h
    have hl := congrArg (fun j => match j with
      | Json.obj fields => fields.length
      | _ => 0) h
    simp [putLinkResponse, getLinksItem, dbRowJson] at hl
  · simp [clientReplaceItem, jsonIdIs, jsonLookup, getLinksItem, dbRowJson, List.lookup]

/-- C10 witnessed at a concrete row. -/
theorem put_response_lacks_numeric_createdAt_witness :
    jsonLookup "createdAt"
        (putLinkResponse ⟨"u1", "T", "https://t", none, none, none, 77⟩) = none
    ∧ jsonLookup "createdAt"
        (getLinksItem ⟨"u1", "T", "https://t", none, none, none, 77⟩)
        = some (.num 77) :=
  ⟨(put_response_lacks_numeric_createdAt ⟨"u1", "T", "https://t", none, none, none, 77⟩).1,
   (put_response_lacks_numeric_createdAt ⟨"u1", "T", "https://t", none, none, none, 77⟩).2.1⟩

/-! ## C7: delete and update on an absent id -/

/-- C7: when no item carries id `i`, the local `delete` filter returns the
collection value-equal and in order, the local `update` map likewise, and
the remote delete leaves the in-memory collection unchanged whether the
server answered ok (the filter finds nothing) or not-found (no state update
at all). All three functions are total — nothing is thrown. -/
theorem delete_update_absent_id_noop (links : List LinkItem) (i : String)
    (p : LinkPatch) (h : i ∉ links.map LinkItem.id) :
    deleteLink links i = links
    ∧ updateLink links i p = links
    ∧ ∀ ok, applyDeleteResponse links i ok = links := by
  have hne : ∀ a ∈ links, a.id ≠ i := by
    intro a ha heq
    exact h (heq ▸ List.mem_map_of_mem LinkItem.id ha)
  have hdel : links.filter (fun l => l.id != i) = links :=
    filter_keep_all (fun a ha => by simpa using hne a ha)
  refine ⟨hdel, ?_, ?_⟩
  · exact map_fix_all (fun a ha => by simp [hne a ha])
  · intro ok
    cases ok <;> simp [applyDeleteResponse, hdel]

/-! ## Round-trip of the durable form -/

/-- Parsing an encoded string body consumes it, the closing quote included. -/
theorem parseStr_enc (s rest : List Char) :
    parseStr (encStr s ++ '"' :: rest) = some (s, rest) := by
  induction s with
  | nil => simp [encStr, parseStr, parseStrF]
  | cons c cs ih =>
    by_cases h : c = '"' ∨ c = '\\'
    · simp only [parseStr] at ih
      simp [encStr, escChar, h, parseStr, parseStrF, ih]
    · have h1 : ¬c = '"' := fun hc => h (Or.inl hc)
      have h2 : ¬c = '\\' := fun hc => h (Or.inr hc)
      simp only [parseStr] at ih
      simp [encStr, escChar, h, parseStr, parseStrF, h1, h2, ih]

/-- A digit value below ten renders as a digit character. -/
theorem digitChar_isDigit {d : Nat} (h : d < 10) : (digitChar d).isDigit = true := by
  interval_cases d <;> decide

/-- Decoding the digit character gives the digit value back. -/
theorem digitChar_toNat {d : Nat} (h : d < 10) : (digitChar d).toNat - 48 = d := by
  interval_cases d <;> decide

/-- Digit accumulation stops at the closing brace. -/
theorem parseNatAux_brace (acc : Nat) (rest : List Char) :
    parseNatAux acc ('\x7d' :: rest) = (acc, '\x7d' :: rest) := by
  simp [parseNatAux]

/-- Digit accumulation over an encoded digit block, most significant first. -/
theorem parseNatAux_digits (es : List Nat) (acc : Nat) (rest : List Char)
    (h : ∀ d ∈ es, d < 10) :
    parseNatAux acc (es.map digitChar ++ '\x7d' :: rest)
      = (acc * 10 ^ es.length + Nat.ofDigits 10 es.reverse, '\x7d' :: rest) := by
  induction es generalizing acc with
  | nil => simp [parseNatAux_brace]
  | cons d es ih =>
    have hd : d < 10 := h d (List.mem_cons_self d es)
    have hes : ∀ x ∈ es, x < 10 := fun x hx => h x (List.mem_cons_of_mem d hx)
    rw [List.map_cons, List.cons_append, parseNatAux, if_pos (digitChar_isDigit hd),
      digitChar_toNat hd, ih (10 * acc + d) hes]
    rw [List.reverse_cons, Nat.ofDigits_append, List.length_reverse,
      Nat.ofDigits_singleton]
    simp only [List.length_cons, pow_succ]
    ring_nf

/-- Parsing an encoded number before a closing brace returns the number. -/
theorem parseNat_enc (n : Nat) (rest : List Char) :
    parseNat (encNat n ++ '\x7d' :: rest) = some (n, '\x7d' :: rest) := by
  by_cases h0 : n = 0
  · subst h0
    have : parseNat (encNat 0 ++ '\x7d' :: rest)
        = some (parseNatAux 0 ('\x7d' :: rest)) := rfl
    rw [this, parseNatAux_brace]
  · have hne : Nat.digits 10 n ≠ [] := Nat.digits_ne_nil_iff_ne_zero.mpr h0
    have hlt : ∀ d ∈ Nat.digits 10 n, d < 10 :=
      fun d hd => Nat.digits_lt_base (by norm_num) hd
    cases hrev : (Nat.digits 10 n).reverse with
    | nil => exact absurd (by simpa using congrArg List.reverse hrev) hne
    | cons d t =>
      have hdig : Nat.digits 10 n = t.reverse ++ [d] := by
        have := congrArg List.reverse hrev
        simpa using this
      have hd10 : d < 10 := hlt d (by simp [hdig])
      have ht10 : ∀ x ∈ t, x < 10 := fun x hx => hlt x (by simp [hdig, hx])
      rw [encNat, if_neg h0, hrev, List.map_cons, List.cons_append, parseNat,
        if_pos (digitChar_isDigit hd10), digitChar_toNat hd10,
        parseNatAux_digits t d _ ht10]
      have hn : n = Nat.ofDigits 10 (t.reverse ++ [d]) := by
        rw [← hdig, Nat.ofDigits_digits]
      rw [Nat.ofDigits_append, List.length_reverse, Nat.ofDigits_singleton] at hn
      rw [hn]
      ring_nf

/-- A literal prefix is recognized and consumed. -/
theorem expectLit_self (key l : List Char) : expectLit key (key ++ l) = some l := by
  induction key with
  | nil => rfl
  | cons c cs ih => simp [expectLit, ih]

/-- The encoded tag-array tail is at least one character per tag. -/
theorem encTagsAux_length (ts : List String) : ts.length ≤ (encTagsAux ts).length := by
  induction ts with
  | nil => simp [encTagsAux]
  | cons t ts ih =>
    simp only [encTagsAux, List.length_cons, List.length_append]
    omega

/-- Parsing an encoded nonempty tag array returns the tags, given fuel for
its element count. -/
theorem parseTagsListF_enc (ts : List String) (t : String) (fuel : Nat)
    (rest : List Char) (h : ts.length < fuel) :
    parseTagsListF fuel (encStr t.data ++ '"' :: (encTagsAux ts ++ rest))
      = some (t :: ts, rest) := by
  induction ts generalizing t fuel rest with
  | nil =>
    cases fuel with
    | zero => omega
    | succ f =>
      rw [parseTagsListF]
      simp [encTagsAux, parseStr_enc]
  | cons u us ih =>
    cases fuel with
    | zero => omega
    | succ f =>
      have hf : us.length < f := by
        simp only [List.length_cons] at h
        omega
      rw [parseTagsListF]
      simp only [encTagsAux, List.cons_append, List.append_assoc]
      rw [parseStr_enc]
      simp [ih u f rest hf]

/-- Parsing an encoded tag array returns the tags. -/
theorem parseTags_enc (ts : List String) (rest : List Char) :
    parseTags (encTags ts ++ rest) = some (ts, rest) := by
  cases ts with
  | nil => simp [encTags, parseTags]
  | cons t ts =>
    simp only [encTags, List.cons_append, List.append_assoc]
    rw [parseTags]
    have hfuel : ts.length < (encStr t.data ++ '"' :: (encTagsAux ts ++ rest)).length := by
      have := encTagsAux_length ts
      simp only [List.length_append, List.length_cons]
      omega
    simpa using parseTagsListF_enc ts t _ rest hfuel

/-- Parsing one serialized field after its separator returns its body. -/
theorem parseField_enc (key : List Char) (s : String) (rest : List Char) :
    parseField key (key ++ (encStr s.data ++ '"' :: rest)) = some (s.data, rest) := by
  simp [parseField, expectLit_self, parseStr_enc]

/-- Parsing a serialized item returns the item and the remainder. -/
theorem parseItem_enc (x : LinkItem) (rest : List Char) :
    parseItem (encItemData x ++ rest) = some (x, rest) := by
  have h1 : parseItemStrs (encItemData x ++ rest)
      = some (⟨x.id.data, x.title.data, x.url.data, x.description.data, x.imageUrl.data⟩,
          kTags ++ (encTags x.tags ++ (kCreatedAt ++ (encNat x.createdAt ++
            (kEnd ++ rest))))) := by
    simp only [encItemData, encStrQ, List.append_assoc, List.singleton_append]
    simp [parseItemStrs, parseField_enc]
  simp only [parseItem, h1, Option.some_bind]
  simp only [kEnd]
  simp [expectLit, expectLit_self, parseTags_enc, parseNat_enc]

/-- The encoded item-array tail is at least one character per item. -/
theorem encItemsAux_length (xs : List LinkItem) :
    xs.length ≤ (encItemsAux xs).length := by
  induction xs with
  | nil => simp [encItemsAux]
  | cons x xs ih =>
    simp only [encItemsAux, List.length_cons, List.length_append]
    omega

/-- Parsing an encoded nonempty item array returns the items, given fuel
for its element count. -/
theorem parseLinksAuxF_enc (xs : List LinkItem) (x : LinkItem) (fuel : Nat)
    (rest : List Char) (h : xs.length < fuel) :
    parseLinksAuxF fuel (encItemData x ++ (encItemsAux xs ++ rest))
      = some (x :: xs, rest) := by
  induction xs generalizing x fuel rest with
  | nil =>
    cases fuel with
    | zero => omega
    | succ f =>
      rw [parseLinksAuxF]
      simp only [encItemsAux, List.singleton_append]
      rw [parseItem_enc]
      simp
  | cons y ys ih =>
    cases fuel with
    | zero => omega
    | succ f =>
      have hf : ys.length < f := by
        simp only [List.length_cons] at h
        omega
      rw [parseLinksAuxF]
      simp only [encItemsAux, List.cons_append, List.append_assoc]
      rw [parseItem_enc]
      simp [ih y f rest hf]

/-- The serialized collection reloads as exactly the collection — the core
round-trip of the durable form. -/
theorem decode_encode (ls : List LinkItem) : decodeLinks (encodeLinks ls) = some ls := by
  cases ls with
  | nil => rfl
  | cons x xs =>
    have hk : kId = '\x7b' :: "\"id\":\"".data := rfl
    have hfuel : xs.length < (encItemData x ++ encItemsAux xs).length := by
      have h1 := encItemsAux_length xs
      have h2 : kId.length ≤ (encItemData x).length := by
        simp only [encItemData, List.length_append]
        omega
      have h3 : 0 < kId.length := by decide
      simp only [List.length_append]
      omega
    have hmain : parseLinksAuxF (encItemData x ++ encItemsAux xs).length
        (encItemData x ++ encItemsAux xs) = some (x :: xs, []) := by
      have := parseLinksAuxF_enc xs x (encItemData x ++ encItemsAux xs).length [] hfuel
      simpa using this
    cases hE : encItemData x ++ encItemsAux xs with
    | nil => simp [encItemData, hk] at hE
    | cons d T =>
      have hd : d = '\x7b' := by
        have h1 : (encItemData x ++ encItemsAux xs).head? = some d := by
          rw [hE]
          rfl
        simp only [encItemData, hk, List.cons_append, List.append_assoc,
          List.head?_cons, Option.some.injEq] at h1
        exact h1.symm
      subst hd
      rw [hE] at hmain
      show decodeLinks ⟨'[' :: (encItemData x ++ encItemsAux xs)⟩ = some (x :: xs)
      rw [hE]
      have hstep : decodeLinks ⟨'[' :: '\x7b' :: T⟩
          = finishParse (parseLinksAuxF ('\x7b' :: T).length ('\x7b' :: T)) := rfl
      rw [hstep, hmain]
      rfl

/-! ## C8: the durable round-trip -/

/-- C8: serializing any collection to the durable JSON blob and reloading
through the local load path yields a collection equal to the original —
same items in the same order with the same field values; in particular no
id or createdAt is reassigned on reload. -/
theorem serialize_reload_roundtrip (ls : List LinkItem) (now : Nat) :
    decodeLinks (encodeLinks ls) = some ls
    ∧ initLocalStore (some (encodeLinks ls)) now = ⟨ls⟩ := by
  refine ⟨decode_encode ls, ?_⟩
  simp [initLocalStore, decode_encode ls]

/-! ## C4: corrupt durable blob -/

/-- C4 counterexample: on the corrupt blob "not json", initialize yields
the empty collection and not the seed data — that much holds — but it sets
no error flag: the local hook's whole state equals the state after a
successful load of an empty collection, because this variant has no error
cell at all (its only state is `links`; the parse failure is merely
logged). -/
theorem corrupt_blob_counterexample :
    decodeLinks "not json" = none
    ∧ initLocalStore (some "not json") 12345 = ⟨[]⟩
    ∧ initLocalStore (some "not json") 12345 ≠ initLocalStore none 12345
    ∧ initLocalStore (some "not json") 12345
        = initLocalStore (some (encodeLinks [])) 12345 :=
  ⟨by decide, by decide, by decide, by decide⟩

/-- C4 amended: for every stored value that fails to parse, the local
initialize yields the empty collection, not the seed data, and throws
nothing past the store boundary (the model is a total function); but no
error flag is set — the local variant exposes none, so the resulting state
is indistinguishable from a successful empty load. -/
theorem corrupt_blob_yields_empty (s : String) (now : Nat)
    (h : decodeLinks s = none) :
    initLocalStore (some s) now = ⟨[]⟩
    ∧ initLocalStore (some s) now ≠ initLocalStore none now := by
  constructor
  · simp [initLocalStore, h]
  · simp [initLocalStore, h, seedLinks]

/-- C4 amended claim witnessed on a concrete corrupt blob. -/
theorem corrupt_blob_yields_empty_witness :
    initLocalStore (some "not json") 7 = ⟨[]⟩ :=
  (corrupt_blob_yields_empty "not json" 7 (by decide)).1

/-! ## C1: the collection invariant under operation sequences -/

/-- First match in a filtered list: the predicates conjoin. -/
theorem find?_filter_pred (p q : LinkItem → Bool) (l : List LinkItem) :
    (l.filter q).find? p = l.find? (fun a => p a && q a) := by
  induction l with
  | nil => rfl
  | cons a t ih =>
    by_cases hq : q a = true <;> by_cases hp : p a = true <;>
      simp [List.filter_cons, List.find?, hq, hp, ih]

/-- First match in a mapped list, when the map preserves the predicate. -/
theorem find?_map_pred (f : LinkItem → LinkItem) (p : LinkItem → Bool)
    (hf : ∀ a, p (f a) = p a) (l : List LinkItem) :
    (l.map f).find? p = (l.find? p).map f := by
  induction l with
  | nil => rfl
  | cons a t ih =>
    by_cases hp : p a = true <;> simp [List.find?, hf, hp, ih]

/-- One operation moves the item at each id exactly as the per-id semantics
`idStep` says. -/
theorem findById_applyOp (links : List LinkItem) (op : Op) (i : String) :
    findById (applyOp links op) i = idStep i (findById links i) op := by
  cases op with
  | add p newId now =>
    by_cases h : newId = i
    · simp [applyOp, addLink, findById, idStep, List.find?, mkLink, h]
    · have hb : (newId == i) = false := beq_eq_false_iff_ne.mpr h
      simp [applyOp, addLink, findById, idStep, List.find?, mkLink, h, hb]
  | update j p =>
    have hpres : ∀ a : LinkItem,
        ((fun l : LinkItem => l.id == i) ((fun l => if l.id = j then applyPatch l p else l) a))
          = ((fun l : LinkItem => l.id == i) a) := by
      intro a
      by_cases h : a.id = j <;> simp [h, applyPatch]
    rw [applyOp, updateLink, findById, findById, find?_map_pred _ _ hpres]
    cases hfind : links.find? (fun l => l.id == i) with
    | none => by_cases hji : j = i <;> simp [idStep, hji]
    | some a =>
      have ha : a.id = i := by
        have := List.find?_some hfind
        simpa using this
      by_cases hji : j = i
      · subst hji
        simp [idStep, ha]
      · have hne : ¬a.id = j := by
          rw [ha]
          exact fun hh => hji hh.symm
        simp [idStep, hji, hne]
  | delete j =>
    rw [applyOp, deleteLink, findById, findById, find?_filter_pred]
    by_cases hji : j = i
    · subst hji
      rw [List.find?_eq_none.mpr]
      · simp [idStep]
      · intro a _
        simp [bne]
    · have hpt : (fun a : LinkItem => (a.id == i) && (a.id != j))
          = fun a : LinkItem => a.id == i := by
        funext a
        by_cases h : a.id = i
        · have hij : i ≠ j := fun hh => hji hh.symm
          simp [h, hij]
        · simp [h]
      rw [hpt]
      simp [idStep, hji]

/-- One operation keeps the ids pairwise distinct, when an added id is
fresh. -/
theorem nodupIds_applyOp (links : List LinkItem) (op : Op)
    (hn : (links.map LinkItem.id).Nodup) (hf : freshOpOk links op = true) :
    ((applyOp links op).map LinkItem.id).Nodup := by
  cases op with
  | add p newId now =>
    have hmem : newId ∉ links.map LinkItem.id := by
      simp only [freshOpOk, List.all_eq_true, bne_iff_ne] at hf
      intro hmem'
      obtain ⟨a, ha, hid⟩ := List.mem_map.mp hmem'
      exact hf a ha hid
    simp [applyOp, addLink, mkLink, List.nodup_cons, hmem, hn]
  | update j p =>
    have hids : (updateLink links j p).map LinkItem.id = links.map LinkItem.id := by
      rw [updateLink, List.map_map]
      apply List.map_congr_left
      intro a _
      by_cases h : a.id = j <;> simp [h, applyPatch]
    simpa [applyOp, hids] using hn
  | delete j =>
    have hsub : ((links.filter (fun l => l.id != j)).map LinkItem.id).Sublist
        (links.map LinkItem.id) :=
      (List.filter_sublist links).map LinkItem.id
    exact List.Nodup.sublist hsub hn

/-- C1: running any finite sequence of add/update/delete on a collection
with pairwise-distinct ids — each add using a fresh id — keeps the ids
pairwise distinct, and the item found at each id is exactly the per-id fold
of the sequence: present iff added (or initially present) and not
subsequently deleted, and carrying the latest updates applied to that id. -/
theorem collection_invariant (init : List LinkItem) (ops : List Op)
    (hn : (init.map LinkItem.id).Nodup) (hf : freshIds init ops = true) :
    ((runOps init ops).map LinkItem.id).Nodup
    ∧ ∀ i, findById (runOps init ops) i = ops.foldl (idStep i) (findById init i) := by
  induction ops generalizing init with
  | nil => exact ⟨hn, fun i => rfl⟩
  | cons op rest ih =>
    rw [freshIds, Bool.and_eq_true] at hf
    obtain ⟨h1, h2⟩ := hf
    have hstep := nodupIds_applyOp init op hn h1
    obtain ⟨ihn, ihf⟩ := ih (applyOp init op) hstep h2
    have hrun : runOps init (op :: rest) = runOps (applyOp init op) rest := rfl
    refine ⟨hrun ▸ ihn, fun i => ?_⟩
    rw [hrun, ihf i, List.foldl_cons, findById_applyOp]

/-- C1 witnessed on a concrete collection and operation sequence. -/
theorem collection_invariant_witness :
    ((runOps [⟨"a", "T", "U", "D", "I", ["t"], 5⟩]
        [.add ⟨"T2", "U2", "", "", []⟩ "b" 3,
         .update "a" ⟨some "T3", none, none, none, none⟩,
         .delete "b"]).map LinkItem.id).Nodup
    ∧ findById (runOps [⟨"a", "T", "U", "D", "I", ["t"], 5⟩]
        [.add ⟨"T2", "U2", "", "", []⟩ "b" 3,
         .update "a" ⟨some "T3", none, none, none, none⟩,
         .delete "b"]) "a"
      = List.foldl (idStep "a")
          (findById [⟨"a", "T", "U", "D", "I", ["t"], 5⟩] "a")
          [.add ⟨"T2", "U2", "", "", []⟩ "b" 3,
           .update "a" ⟨some "T3", none, none, none, none⟩,
           .delete "b"] :=
  ⟨(collection_invariant _ _ (by decide) (by decide)).1,
   (collection_invariant _ _ (by decide) (by decide)).2 "a"⟩

/-- C7 witnessed at a concrete collection and absent id. -/
theorem delete_update_absent_id_noop_witness :
    deleteLink [⟨"a", "T", "u", "d", "im", ["x"], 3⟩] "zzz"
        = [⟨"a", "T", "u", "d", "im", ["x"], 3⟩]
    ∧ updateLink [⟨"a", "T", "u", "d", "im", ["x"], 3⟩] "zzz"
        ⟨some "N", none, none, none, none⟩
        = [⟨"a", "T", "u", "d", "im", ["x"], 3⟩]
    ∧ applyDeleteResponse [⟨"a", "T", "u", "d", "im", ["x"], 3⟩] "zzz" true
        = [⟨"a", "T", "u", "d", "im", ["x"], 3⟩] :=
  ⟨(delete_update_absent_id_noop [⟨"a", "T", "u", "d", "im", ["x"], 3⟩] "zzz"
      ⟨some "N", none, none, none, none⟩ (by decide)).1,
   (delete_update_absent_id_noop [⟨"a", "T", "u", "d", "im", ["x"], 3⟩] "zzz"
      ⟨some "N", none, none, none, none⟩ (by decide)).2.1,
   (delete_update_absent_id_noop [⟨"a", "T", "u", "d", "im", ["x"], 3⟩] "zzz"
      ⟨some "N", none, none, none, none⟩ (by decide)).2.2 true⟩

end Dashboard
